import Mathlib

/-!
Verification of the run-length-example HTTP server orchestration layer.

The Go sources (cmd/server/main.go and its embedded-assets variant) are
shallowly embedded below.  Machine integers (Go `int`/`int64`) are modelled
as `Int` with the Go truncated division and remainder (`Int.tdiv`,
`Int.tmod`); timestamps are Unix seconds as `Int`; request bodies are
`List Char`.  The external sequence store (`github.com/geofduf/run-length`)
is out of scope for the repository and is modelled abstractly: the batch
outcome is an explicit list of per-statement error flags and the query
outcome an explicit parameter, matching the per-item contract the spec
assigns to the store.
-/

namespace RunLengthExample

/-- Constant `sequenceFrequency = 15` from main.go. -/
def sequenceFrequency : Int := 15

/-- Constant `maxNumberOfPoints = 380` from main.go. -/
def maxNumberOfPoints : Int := 380

/-- The fixed ascending aggregation table `aggregations` from main.go. -/
def aggregations : List Int :=
  [15, 30, 60, 120, 300, 600, 900, 1200, 1800, 3600, 7200, 14400, 43200, 86400]

/-- Reduction of an integer to its two-complement 64-bit value: the result
of every wrapping Go int64 addition, subtraction or negation is the wrap of
the exact value. -/
def wrapInt64 (x : Int) : Int :=
  (x + 9223372036854775808) % 18446744073709551616 - 9223372036854775808

/-- Offset between Unix seconds and the Go time package internal epoch
(seconds from Jan 1, year 1): `unixToInternal = 62135596800`, itself a
multiple of 15. -/
def unixToInternal : Int := 62135596800

/-- Internal seconds of `time.Unix(x, 0)`: the Go source computes
`sec + unixToInternal` as an int64 addition, which wraps for
`x > 9223371974719179007`. -/
def goUnixInternal (x : Int) : Int := wrapInt64 (x + unixToInternal)

/-- The whole-second remainder computed by the time package `div` routine
for `d = 15s` on a time with internal seconds `S` and zero nanoseconds: a
negative `S` is negated first (int64 negation, wrapping at the minimum),
the Go `%` (truncated remainder) is taken, and a non-zero remainder of a
negative time is reflected as `d - r`. -/
def goTruncRem15 (S : Int) : Int :=
  if 0 ≤ S then S.tmod sequenceFrequency
  else
    let r0 := (wrapInt64 (-S)).tmod sequenceFrequency
    if r0 = 0 then 0 else sequenceFrequency - r0

/-- Unix seconds of `time.Unix(x, 0).Truncate(15 * time.Second)`: the
internal epoch is computed (wrapping), the `div` remainder is subtracted by
`Add` (an int64 addition on the internal seconds, wrapping), and `Unix()`
subtracts `unixToInternal` back (wrapping).  Faithful for `x` in the int64
range, the domain of the Go code. -/
def goTruncate15 (x : Int) : Int :=
  let S := goUnixInternal x
  wrapInt64 (wrapInt64 (S - goTruncRem15 S) - unixToInternal)

/-- Function `ceilInt64` from the embedded-assets variant: the Go operator
`%` is the truncated remainder (`Int.tmod`), and the addition
`x + step - r` is int64 arithmetic, which wraps for `x` near the int64
maximum. -/
def ceilInt64 (x step : Int) : Int :=
  let r := x.tmod step
  if r ≠ 0 then wrapInt64 (x + step - r) else x

/-- The aggregation-selection loop of `newQueryArgs`: scan `aggregations` in
order and keep the first `v` with `scope / v <= maxNumberOfPoints` (Go `/` on
int64 is truncated division, `Int.tdiv`).  The Go loop leaves `aggregation`
at its zero value when no entry qualifies, which the caller turns into the
"range is too large" error; `none` models that zero value. -/
def selectAggregation (scope : Int) : Option Int :=
  aggregations.find? (fun v => scope.tdiv v ≤ maxNumberOfPoints)

/-- Result of `newQueryArgs`: start and end instants (Unix seconds) and the
grouping interval in seconds (`time.Duration(aggregation) * time.Second`). -/
structure QueryArgs where
  start : Int
  endT : Int
  interval : Int
deriving DecidableEq, Repr

/-- Function `newQueryArgs` from the embedded-assets variant, after the two
`strconv.Atoi` calls succeeded (the claims about it all assume parseable
parameters), faithful for arguments in the int64 range: ceil the start to
the sampling grain (wrapping int64 arithmetic), reject when the ceiled
start is after the end -- `x.After(y)` compares the wrapped internal
epochs of the two `time.Unix` values -- then select the aggregation for
`scope := y.Unix() - x.Unix()`, an int64 subtraction of the unix seconds
(`Unix()` returns the original in-range unix value), which wraps for spans
over the int64 maximum. -/
def newQueryArgs (startRaw endRaw : Int) : Except String QueryArgs :=
  let x := ceilInt64 startRaw sequenceFrequency
  let y := endRaw
  if goUnixInternal y < goUnixInternal x then .error "range is not valid"
  else
    match selectAggregation (wrapInt64 (y - x)) with
    | some a => .ok ⟨x, y, a⟩
    | none => .error "range is too large"

/-- Function `newQueryArgs` from cmd/server/main.go, after the two
`time.Parse` calls succeeded, expressed on the Unix seconds of the parsed
instants: no ceiling is applied to the start in this variant.  Parseable
dates span years 0 to 9999, so the internal epochs, comparisons and the
scope subtraction never overflow int64 on this domain and are modelled
exactly. -/
def newQueryArgsDates (startRaw endRaw : Int) : Except String QueryArgs :=
  if endRaw < startRaw then .error "range is not valid"
  else
    match selectAggregation (endRaw - startRaw) with
    | some a => .ok ⟨startRaw, endRaw, a⟩
    | none => .error "range is too large"

/-! Statement grammar.

The regexp is `validStatement = regexp.MustCompile("^\\w+ [012](?: \\d+)?$")` (the
main.go variant additionally captures the three groups; both variants
accept exactly the same lines and decode the same fields from a matched
line).  In Go regexps `\w` is ASCII `[0-9A-Za-z_]` and `\d` is `[0-9]`.  Since a
space is not a word character, a line matches iff it decomposes as
`key ++ " " ++ [digit]` or `key ++ " " ++ [digit] ++ " " ++ timestamp`
where `key` is a non-empty run of word characters up to the first space,
`digit ∈ {0,1,2}` and `timestamp` is a non-empty run of ASCII digits. -/

/-- Go regexp `\w`: ASCII word character. -/
def isWordChar (c : Char) : Bool := c.isAlpha || c.isDigit || c = '_'

/-- Split a line at its first space, keeping both sides (the embedded-assets
variant does this with `bytes.IndexByte(line, ' ')`). -/
def splitFirstSpace : List Char → Option (List Char × List Char)
  | [] => none
  | c :: rest =>
    if c = ' ' then some ([], rest)
    else
      match splitFirstSpace rest with
      | none => none
      | some (k, r) => some (c :: k, r)

/-- Whole-line match of `validStatement`, returning the key, the state digit
and the optional timestamp digits, exactly the fields the two Go variants
extract from a matched line. -/
def matchStatement (line : List Char) : Option (List Char × Char × Option (List Char)) :=
  match splitFirstSpace line with
  | none => none
  | some (key, rest) =>
    if key ≠ [] ∧ key.all isWordChar then
      match rest with
      | [d] =>
        if d = '0' ∨ d = '1' ∨ d = '2' then some (key, d, none) else none
      | d :: c :: ts =>
        if (d = '0' ∨ d = '1' ∨ d = '2') ∧ c = ' ' ∧ ts ≠ [] ∧ ts.all Char.isDigit then
          some (key, d, some ts)
        else none
      | _ => none
    else none

/-- The three state constants of the store; their numeric values belong to the
external package, only the closed three-way distinction matters here. -/
inductive GoState
  | inactive
  | active
  | unknown
deriving DecidableEq, Repr

/-- The `switch` on the state digit in `handlerInsert`; the `default` branch
is `log.Panic("poor validation panic")`, modelled as `none`. -/
def decodeState (c : Char) : Option GoState :=
  if c = '0' then some .inactive
  else if c = '1' then some .active
  else if c = '2' then some .unknown
  else none

/-- Numeric value of a list of ASCII digits, most significant first. -/
def digitsToNat (l : List Char) : Nat :=
  l.foldl (fun a c => a * 10 + (c.toNat - 48)) 0

/-- Largest Go int64 / int (64-bit platform). -/
def maxInt64 : Nat := 9223372036854775807

/-- Model of `strconv.Atoi` on a string already known to consist of digits (the
grammar guarantees `\d+` here): it returns the value unless it overflows a
64-bit int, in which case it returns `ErrRange`; the handler turns that
error into `log.Panic("poor validation panic")`, modelled as `none`. -/
def goAtoiDigits (l : List Char) : Option Int :=
  if digitsToNat l ≤ maxInt64 then some ((digitsToNat l : Nat) : Int) else none

/-- An insert statement as built by `handlerInsert` (the fields of
`sequence.Statement` that the handlers set to per-line values; `Type`,
`CreateIfNotExists` and `CreateWithFrequency` are the same constants for
every statement). -/
structure GoStatement where
  key : List Char
  timestamp : Int
  value : GoState
  createWithTimestamp : Int
deriving DecidableEq, Repr

/-- The per-matched-line body of the statement-building loop: decode the
state digit (panic on the impossible default branch), then either keep the
request-wide default timestamps or `Atoi` the explicit timestamp (panic on
`ErrRange`) and floor it to the sampling grain.  `none` models a panic. -/
def buildStatement (defaultValueTimestamp defaultSequenceTimestamp : Int)
    (key : List Char) (d : Char) (ts : Option (List Char)) : Option GoStatement :=
  match decodeState d with
  | none => none
  | some v =>
    match ts with
    | none => some ⟨key, defaultValueTimestamp, v, defaultSequenceTimestamp⟩
    | some digits =>
      match goAtoiDigits digits with
      | none => none
      | some x => some ⟨key, x, v, goTruncate15 x⟩

/-- Build the whole statement list; a panic on any line aborts the handler
(`none`). -/
def buildStatements (dv ds : Int) :
    List (List Char × Char × Option (List Char)) → Option (List GoStatement)
  | [] => some []
  | m :: rest =>
    match buildStatement dv ds m.1 m.2.1 m.2.2, buildStatements dv ds rest with
    | some s, some ss => some (s :: ss)
    | _, _ => none

/-- Model of `bytes.Split(body, []byte("\n"))`: one element per line, trailing
separator producing a trailing empty element, empty input producing one
empty element. -/
def splitLines : List Char → List (List Char)
  | [] => [[]]
  | c :: rest =>
    if c = '\n' then [] :: splitLines rest
    else
      match splitLines rest with
      | [] => [[c]]
      | l :: ls => (c :: l) :: ls

/-- Number of input lines of a request body. -/
def lineCount (body : List Char) : Nat := (splitLines body).length

/-- Lines of a request body that match the statement grammar, in order. -/
def matchedLines (body : List Char) : List (List Char × Char × Option (List Char)) :=
  (splitLines body).filterMap matchStatement

/-- Number of grammar-matching lines of a request body. -/
def matchedCount (body : List Char) : Nat := (matchedLines body).length

/-- The observable content of an insert response: the final count `n`, the
total line count, and the status and message built from them. -/
structure InsertResult where
  accepted : Int
  total : Nat
  status : String
  message : String
deriving DecidableEq, Repr

/-- Handler `handlerInsert` (embedded-assets variant; the main.go variant computes
the same counts with `skipped++` instead of `n--`): split the body on
newlines, drop lines that fail the grammar, build the statements (a panic,
modelled as `none`, aborts the handler), submit the batch, subtract one from
the accepted count for every per-statement error the store reports
(`errFlags`, parallel to the submitted statements), and report
`warning` exactly when the final count differs from the line count.  The
fixed `http.StatusOK` code is omitted: both statuses answer 200. -/
def handlerInsert (defaultValueTimestamp : Int) (body : List Char)
    (errFlags : List Bool) : Option InsertResult :=
  let defaultSequenceTimestamp := goTruncate15 defaultValueTimestamp
  let lines := splitLines body
  let parsed := lines.filterMap matchStatement
  match buildStatements defaultValueTimestamp defaultSequenceTimestamp parsed with
  | none => none
  | some stmts =>
    let errCount := errFlags.countP (· = true)
    let n : Int := (stmts.length : Int) - (errCount : Int)
    let status := if n ≠ (lines.length : Int) then "warning" else "ok"
    some ⟨n, lines.length, status,
      "processed " ++ toString n ++ "/" ++ toString lines.length ++ " statement(s)"⟩

/-- An HTTP response of the query handler (code, status, message). -/
structure QueryResponse where
  code : Nat
  status : String
  message : String
deriving DecidableEq, Repr

/-- A query handler run: the response plus whether `store.Query` was
invoked. -/
structure QueryOutcome where
  response : QueryResponse
  storeQueried : Bool
deriving DecidableEq, Repr

/-- Handler `handlerQuery` (embedded-assets variant) for a GET request with
parseable `start` and `end`.  The store is modelled by the list of its
existing keys (`store.Get(key)` succeeds iff the key is present) and by the
outcome of `store.Query` (`some rows` = success with `rows` result rows,
`none` = error). -/
def handlerQuery (keys : List String) (key : String) (startRaw endRaw : Int)
    (queryRows : Option Nat) : QueryOutcome :=
  match newQueryArgs startRaw endRaw with
  | .error msg => ⟨⟨400, "error", msg⟩, false⟩
  | .ok args =>
    if keys.contains key then
      match queryRows with
      | none => ⟨⟨500, "error", "an unexpected error occurred"⟩, true⟩
      | some rows =>
        ⟨⟨200, "ok", toString rows ++ " row(s) returned (interval " ++
            toString args.interval ++ "s)"⟩, true⟩
    else ⟨⟨400, "error", "key does not exist"⟩, false⟩

/-- The observable effect of one `dump` call: whether `os.WriteFile` was
invoked and what was logged. -/
structure DumpEffect where
  writeAttempted : Bool
  logs : List String
deriving DecidableEq, Repr

/-- Routine `dump`: the call `store.Dump()` either fails (logged, early return, no write) or
yields a buffer which is handed to `os.WriteFile`; a write failure is
logged and the function returns; a successful write is logged.  The two
collaborator outcomes are explicit parameters. -/
def dump (serializeOutcome : Except String (List Nat))
    (writeOutcome : Except String Unit) : DumpEffect :=
  match serializeOutcome with
  | .error e => ⟨false, ["error dumping store: " ++ e]⟩
  | .ok buf =>
    match writeOutcome with
    | .error e => ⟨true, ["error writing file: " ++ e]⟩
    | .ok _ => ⟨true, ["writing store to file (" ++ toString buf.length ++ " bytes)"]⟩

/-! Helper lemmas. -/

/-- Wrapping is the identity on values already in the int64 range. -/
theorem wrapInt64_eq_self {x : Int} (h1 : -9223372036854775808 ≤ x)
    (h2 : x ≤ 9223372036854775807) : wrapInt64 x = x := by
  simp only [wrapInt64]
  omega

/-- Wrapping the left operand of a subtraction before wrapping the result
is the same as wrapping the exact difference: Go chains of int64
operations compute the wrap of the exact value. -/
theorem wrapInt64_sub_right (a b : Int) :
    wrapInt64 (wrapInt64 a - b) = wrapInt64 (a - b) := by
  simp only [wrapInt64]
  omega

/-- Bounds of the truncated remainder by 15, for every dividend. -/
theorem tmod15_bounds (a : Int) : -15 < a.tmod 15 ∧ a.tmod 15 < 15 := by
  cases a with
  | ofNat m =>
    have h1 : (Int.ofNat m).tmod 15 = ((m % 15 : Nat) : Int) := rfl
    have h2 : m % 15 < 15 := Nat.mod_lt _ (by decide)
    omega
  | negSucc m =>
    have h1 : (Int.negSucc m).tmod 15 = -(((m + 1) % 15 : Nat) : Int) := rfl
    have h2 : (m + 1) % 15 < 15 := Nat.mod_lt _ (by decide)
    omega

/-- The truncated remainder of a negative dividend is non-positive. -/
theorem tmod15_nonpos (a : Int) (ha : a < 0) : a.tmod 15 ≤ 0 := by
  cases a with
  | ofNat m =>
    have h1 : Int.ofNat m = ((m : Nat) : Int) := rfl
    omega
  | negSucc m =>
    have h1 : (Int.negSucc m).tmod 15 = -(((m + 1) % 15 : Nat) : Int) := rfl
    omega

/-- The remainder the time package `div` routine computes for 15 seconds is
between 0 and 29 (the value 23 is reached at the internal minimum, where
the int64 negation wraps). -/
theorem goTruncRem15_bounds (S : Int) : 0 ≤ goTruncRem15 S ∧ goTruncRem15 S ≤ 29 := by
  simp only [goTruncRem15, sequenceFrequency]
  split_ifs with h0 hr0
  · have h2 := Int.tmod_lt_of_pos S (by decide : (0 : Int) < 15)
    have h3 := Int.tmod_nonneg (15 : Int) h0
    omega
  · omega
  · have := tmod15_bounds (wrapInt64 (-S))
    omega

/-- The ceiled value is aligned and no smaller than the argument whenever
the int64 addition `x + step - r` does not overflow (the negative inputs
reachable from the query interface are covered). -/
theorem ceilInt64_aligned_ge (x step : Int) (hstep : 0 < step)
    (hwrap : x.tmod step ≠ 0 →
      -9223372036854775808 ≤ x + step - x.tmod step ∧
        x + step - x.tmod step ≤ 9223372036854775807) :
    ceilInt64 x step % step = 0 ∧ x ≤ ceilInt64 x step := by
  have htd : x.tmod step = x - step * x.tdiv step := Int.tmod_def x step
  have hlt : x.tmod step < step := Int.tmod_lt_of_pos x hstep
  simp only [ceilInt64]
  split_ifs with hr
  · rw [wrapInt64_eq_self (hwrap hr).1 (hwrap hr).2]
    constructor
    · have heq : x + step - x.tmod step = step * (x.tdiv step + 1) := by
        rw [htd]; ring
      rw [heq]
      exact Int.mul_emod_right step (x.tdiv step + 1)
    · omega
  · have hr0 : x.tmod step = 0 := not_not.mp hr
    exact ⟨Int.emod_eq_zero_of_dvd (Int.dvd_of_tmod_eq_zero hr0), le_refl x⟩

/-- For a non-negative input whose ceiling does not overflow, `ceilInt64`
is the least multiple of `step` that is at least the input. -/
theorem ceilInt64_pos_min (x step : Int) (hx : 0 ≤ x) (hstep : 0 < step)
    (hwrap : x.tmod step ≠ 0 →
      -9223372036854775808 ≤ x + step - x.tmod step ∧
        x + step - x.tmod step ≤ 9223372036854775807) :
    ∀ y : Int, y % step = 0 → x ≤ y → ceilInt64 x step ≤ y := by
  intro y hy hxy
  have hem : x.tmod step = x % step := Int.tmod_eq_emod hx (le_of_lt hstep)
  have hq : step * (x / step) + x % step = x := Int.ediv_add_emod x step
  obtain ⟨k, hk⟩ : step ∣ y := Int.dvd_of_emod_eq_zero hy
  rw [hem] at hwrap
  simp only [ceilInt64, hem]
  split_ifs with hr
  · rw [wrapInt64_eq_self (hwrap hr).1 (hwrap hr).2]
    have hr0 : 0 < x % step := by
      have := Int.emod_nonneg x (ne_of_gt hstep)
      omega
    have h1 : step * (x / step) < step * k := by omega
    have h2 : x / step < k := lt_of_mul_lt_mul_left h1 (le_of_lt hstep)
    have h3 : step * (x / step + 1) ≤ step * k :=
      mul_le_mul_of_nonneg_left (by omega) (le_of_lt hstep)
    have h4 : step * (x / step + 1) = step * (x / step) + step := by ring
    omega
  · exact hxy

/-- Behaviour of the modelled `time.Unix(x,0).Truncate(15s)` on unix
seconds in the int64 range: the result is the raw value minus the `div`
remainder, hence never larger; when the internal epoch does not overflow
(`x ≤ 9223371974719179007`) the remainder is exactly `x % 15`, so the
result is grain-aligned and equals `x` exactly when `x` is aligned. -/
theorem goTruncate15_spec (x : Int) (hx0 : 0 ≤ x) (hx1 : x ≤ 9223372036854775807) :
    goTruncate15 x = x - goTruncRem15 (goUnixInternal x) ∧
      goTruncate15 x ≤ x ∧
      (x ≤ 9223371974719179007 →
        goTruncate15 x % 15 = 0 ∧ (x % 15 = 0 ↔ goTruncate15 x = x)) := by
  have hU : unixToInternal = 62135596800 := rfl
  have hrb := goTruncRem15_bounds (goUnixInternal x)
  have hval : goTruncate15 x = x - goTruncRem15 (goUnixInternal x) := by
    simp only [goTruncate15, goUnixInternal]
    rw [wrapInt64_sub_right (x + unixToInternal)
      (goTruncRem15 (wrapInt64 (x + unixToInternal)))]
    rw [wrapInt64_sub_right
      (x + unixToInternal - goTruncRem15 (wrapInt64 (x + unixToInternal)))
      unixToInternal]
    have harith : x + unixToInternal -
        goTruncRem15 (wrapInt64 (x + unixToInternal)) - unixToInternal =
        x - goTruncRem15 (wrapInt64 (x + unixToInternal)) := by ring
    rw [harith]
    simp only [goUnixInternal] at hrb
    exact wrapInt64_eq_self (by omega) (by omega)
  refine ⟨hval, by omega, ?_⟩
  intro hx2
  have hSid : goUnixInternal x = x + unixToInternal := by
    simp only [goUnixInternal]
    exact wrapInt64_eq_self (by omega) (by omega)
  have hS0 : 0 ≤ goUnixInternal x := by omega
  have hrval : goTruncRem15 (goUnixInternal x) = x % 15 := by
    simp only [goTruncRem15, sequenceFrequency]
    rw [if_pos hS0, hSid]
    rw [Int.tmod_eq_emod (by omega) (by decide)]
    have hU15 : x + unixToInternal = x + 15 * 4142373120 := by omega
    rw [hU15, Int.add_mul_emod_self_left]
  rw [hval, hrval]
  refine ⟨by omega, by omega⟩

/-- In a list sorted by `≤`, the first element satisfying `p` is at most
every element satisfying `p`. -/
theorem find_le_of_pairwise (p : Int → Bool) :
    ∀ l : List Int, l.Pairwise (fun a b => a ≤ b) → ∀ v, l.find? p = some v →
      ∀ w ∈ l, p w → v ≤ w := by
  intro l
  induction l with
  | nil => intro _ v hv; simp at hv
  | cons x xs ih =>
    intro hp v hv w hw hpw
    rcases List.pairwise_cons.mp hp with ⟨hx, hxs⟩
    by_cases hpx : p x
    · rw [List.find?_cons_of_pos _ hpx] at hv
      cases hv
      rcases List.mem_cons.mp hw with rfl | hwxs
      · exact le_refl w
      · exact hx w hwxs
    · rw [List.find?_cons_of_neg _ hpx] at hv
      rcases List.mem_cons.mp hw with rfl | hwxs
      · exact absurd hpw hpx
      · exact ih hxs v hv w hwxs hpw

/-- Splitting never returns the empty list. -/
theorem splitLines_ne_nil : ∀ l : List Char, splitLines l ≠ [] := by
  intro l
  induction l with
  | nil => simp [splitLines]
  | cons c rest ih =>
    simp only [splitLines]
    by_cases hc : c = '\n'
    · simp [hc]
    · simp only [hc, if_false]
      cases h : splitLines rest with
      | nil => simp
      | cons a as => simp

/-- Splitting a body with a trailing newline yields an extra trailing empty
line. -/
theorem splitLines_append_newline :
    ∀ b : List Char, splitLines (b ++ ['\n']) = splitLines b ++ [[]] := by
  intro b
  induction b with
  | nil => simp [splitLines]
  | cons c rest ih =>
    by_cases hc : c = '\n'
    · simp [splitLines, hc, ih]
    · cases h : splitLines rest with
      | nil => exact absurd h (splitLines_ne_nil rest)
      | cons a as => simp [splitLines, hc, ih, h]

/-- A successful `buildStatements` run produces one statement per matched
line. -/
theorem buildStatements_length (dv ds : Int) :
    ∀ (l : List (List Char × Char × Option (List Char))) (ss : List GoStatement),
      buildStatements dv ds l = some ss → ss.length = l.length := by
  intro l
  induction l with
  | nil => intro ss h; simp only [buildStatements] at h; cases h; rfl
  | cons m rest ih =>
    intro ss h
    simp only [buildStatements] at h
    cases hb : buildStatement dv ds m.1 m.2.1 m.2.2 with
    | none => rw [hb] at h; cases h
    | some s =>
      rw [hb] at h
      cases hr : buildStatements dv ds rest with
      | none => rw [hr] at h; cases h
      | some ss2 =>
        rw [hr] at h
        cases h
        simp [ih ss2 hr]

/-! Claim theorems. -/

/-- C10 counterexample: the claim asserts the least-multiple property for
every non-negative `x` and positive `step`, but at `x` equal to the int64
maximum (parseable from the query interface) the Go addition
`x + step - r` wraps: the result is negative, hence smaller than `x` and
not a multiple of `step` at or above `x`. -/
theorem ceilInt64_max_wraps :
    (0 : Int) ≤ 9223372036854775807 ∧ (0 : Int) < 15 ∧
      ceilInt64 9223372036854775807 15 = -9223372036854775801 ∧
      ceilInt64 9223372036854775807 15 < 9223372036854775807 :=
  ⟨by decide, by decide, rfl, by decide⟩

/-- C10 amended: for every non-negative `x` and positive `step` with
`x + step` at most `2^63` (so the wrapping int64 addition `x + step - r`
cannot overflow), `ceilInt64 x step` is the smallest multiple of `step`
that is greater than or equal to `x`; beyond that bound the addition wraps
to a negative value. -/
theorem ceilInt64_pos_spec (x step : Int) (hx : 0 ≤ x) (hstep : 0 < step)
    (hnw : x + step ≤ 9223372036854775808) :
    ceilInt64 x step % step = 0 ∧ x ≤ ceilInt64 x step ∧
      ∀ y : Int, y % step = 0 → x ≤ y → ceilInt64 x step ≤ y := by
  have hwrap : x.tmod step ≠ 0 →
      -9223372036854775808 ≤ x + step - x.tmod step ∧
        x + step - x.tmod step ≤ 9223372036854775807 := by
    intro hr
    have hnn := Int.tmod_nonneg step hx
    have hlt := Int.tmod_lt_of_pos x hstep
    omega
  exact ⟨(ceilInt64_aligned_ge x step hstep hwrap).1,
    (ceilInt64_aligned_ge x step hstep hwrap).2,
    ceilInt64_pos_min x step hx hstep hwrap⟩

/-- Witness for C10 at `x = 7`, `step = 15`. -/
theorem ceilInt64_pos_spec_witness :
    (0 : Int) ≤ 7 ∧ (0 : Int) < 15 ∧ (7 : Int) + 15 ≤ 9223372036854775808 ∧
      (ceilInt64 7 15 % 15 = 0 ∧ (7 : Int) ≤ ceilInt64 7 15 ∧
        ∀ y : Int, y % 15 = 0 → 7 ≤ y → ceilInt64 7 15 ≤ y) :=
  ⟨by decide, by decide, by decide,
    ceilInt64_pos_spec 7 15 (by decide) (by decide) (by decide)⟩

/-- C6 counterexample: the claim says the effective start is the requested
start rounded up (ceiling) to the next 15-second boundary.  For the
parseable request start `-7` the handler produces effective start `15`,
although `0` is already a grain boundary that is at least `-7` and smaller
than `15`: the result is not the ceiling. -/
theorem ceil_start_not_least :
    newQueryArgs (-7) 100 = .ok ⟨15, 100, 15⟩ ∧
      (0 : Int) % sequenceFrequency = 0 ∧ (-7 : Int) ≤ 0 ∧ (0 : Int) < 15 :=
  ⟨rfl, by decide, by decide, by decide⟩

/-- C6 amended: for every accepted query whose raw start is at most
`2^63 - 15` (so the wrapping ceiling addition cannot overflow), the
effective start is grain-aligned and never earlier than the requested
start, and for non-negative such starts it is exactly the ceiling to the
next grain boundary (for negative unaligned starts it overshoots by one
grain); at larger parseable starts the int64 addition wraps, producing an
unaligned effective start earlier than the requested one. -/
theorem newQueryArgs_start_aligned_ge (s e : Int) (args : QueryArgs)
    (hs1 : -9223372036854775808 ≤ s) (hs2 : s ≤ 9223372036854775793)
    (h : newQueryArgs s e = .ok args) :
    args.start % sequenceFrequency = 0 ∧ s ≤ args.start ∧
      (0 ≤ s → ∀ y : Int, y % sequenceFrequency = 0 → s ≤ y → args.start ≤ y) ∧
      (ceilInt64 9223372036854775807 15 = -9223372036854775801 ∧
        ¬(-9223372036854775801 : Int) % 15 = 0 ∧
        (-9223372036854775801 : Int) < 9223372036854775807) := by
  have hfreq : sequenceFrequency = (15 : Int) := rfl
  have hstart : args.start = ceilInt64 s sequenceFrequency := by
    simp only [newQueryArgs] at h
    split_ifs at h with hlt
    revert h
    cases hsel : selectAggregation (wrapInt64 (e - ceilInt64 s sequenceFrequency)) with
    | none => intro h; cases h
    | some a => intro h; cases h; rfl
  rw [hstart, hfreq]
  have hwrap : s.tmod 15 ≠ 0 →
      -9223372036854775808 ≤ s + 15 - s.tmod 15 ∧
        s + 15 - s.tmod 15 ≤ 9223372036854775807 := by
    intro hr
    have hb := tmod15_bounds s
    by_cases hs0 : 0 ≤ s
    · have hnn := Int.tmod_nonneg (15 : Int) hs0
      omega
    · have hnp := tmod15_nonpos s (by omega)
      omega
  refine ⟨(ceilInt64_aligned_ge s 15 (by decide) hwrap).1,
    (ceilInt64_aligned_ge s 15 (by decide) hwrap).2, ?_, rfl, by decide, by decide⟩
  intro hs0
  exact ceilInt64_pos_min s 15 hs0 (by decide) hwrap

/-- Witness for C6 amended at `s = 7`, `e = 100`. -/
theorem newQueryArgs_start_aligned_ge_witness :
    newQueryArgs 7 100 = .ok ⟨15, 100, 15⟩ ∧
      ((15 : Int) % sequenceFrequency = 0 ∧ (7 : Int) ≤ 15 ∧
        (0 ≤ (7 : Int) → ∀ y : Int, y % sequenceFrequency = 0 → 7 ≤ y → (15 : Int) ≤ y) ∧
        (ceilInt64 9223372036854775807 15 = -9223372036854775801 ∧
          ¬(-9223372036854775801 : Int) % 15 = 0 ∧
          (-9223372036854775801 : Int) < 9223372036854775807)) :=
  ⟨rfl, newQueryArgs_start_aligned_ge 7 100 ⟨15, 100, 15⟩ (by decide) (by decide) rfl⟩

/-- C7 counterexample: the claim says no request whose raw start does not
exceed its raw end is rejected on range-validity grounds; but the raw range
`start = 1, end = 5` (with `1 ≤ 5`) is rejected with "range is not valid",
because the check is applied to the ceiled start `15 > 5`. -/
theorem newQueryArgs_rejects_raw_valid_range :
    newQueryArgs 1 5 = .error "range is not valid" ∧ (1 : Int) ≤ 5 :=
  ⟨rfl, by decide⟩

/-- C7 amended: when the ceiled start and the end both stay at or below
`9223371974719179007` (the largest unix second whose Go internal epoch
fits an int64), the unix-seconds variant fails with "range is not valid"
exactly when the start ceiled to the sampling grain exceeds the end; the
date-string variant (which applies no ceiling, and whose parseable dates
never overflow) fails exactly when the raw start exceeds the raw end.  At
int64 extremes the wrapped internal comparison diverges in both
directions: start `maxInt64` with end 100 is accepted, while start
`minInt64` with end `maxInt64` (raw start below raw end) is rejected. -/
theorem newQueryArgs_invalid_range_iff (s e : Int) :
    (-9223372036854775808 ≤ ceilInt64 s sequenceFrequency →
      ceilInt64 s sequenceFrequency ≤ 9223371974719179007 →
      -9223372036854775808 ≤ e → e ≤ 9223371974719179007 →
      (newQueryArgs s e = .error "range is not valid" ↔
        e < ceilInt64 s sequenceFrequency)) ∧
      (newQueryArgsDates s e = .error "range is not valid" ↔ e < s) ∧
      newQueryArgs 9223372036854775807 100 =
        .ok ⟨-9223372036854775801, 100, 15⟩ ∧
      (newQueryArgs (-9223372036854775808) 9223372036854775807 =
          .error "range is not valid" ∧
        (-9223372036854775808 : Int) ≤ 9223372036854775807) := by
  refine ⟨?_, ?_, rfl, rfl, by decide⟩
  · intro hc1 hc2 he1 he2
    have hU : unixToInternal = 62135596800 := rfl
    have hx : goUnixInternal (ceilInt64 s sequenceFrequency) =
        ceilInt64 s sequenceFrequency + unixToInternal := by
      simp only [goUnixInternal]
      exact wrapInt64_eq_self (by omega) (by omega)
    have hy : goUnixInternal e = e + unixToInternal := by
      simp only [goUnixInternal]
      exact wrapInt64_eq_self (by omega) (by omega)
    simp only [newQueryArgs, hx, hy]
    split_ifs with hlt
    · exact ⟨fun _ => by omega, fun _ => rfl⟩
    · constructor
      · intro hcon
        exfalso
        revert hcon
        cases selectAggregation
            (wrapInt64 (e - ceilInt64 s sequenceFrequency)) with
        | some a => intro hcon; cases hcon
        | none =>
          intro hcon
          injection hcon with hstr
          exact absurd hstr (by decide)
      · intro hclt
        exact absurd hclt (by omega)
  · simp only [newQueryArgsDates]
    split_ifs with hlt
    · simp [hlt]
    · simp only [hlt, iff_false]
      split
      · simp
      · simp

/-- Witness for C7 amended at `s = 1`, `e = 5`. -/
theorem newQueryArgs_invalid_range_iff_witness :
    newQueryArgs 1 5 = .error "range is not valid" :=
  ((newQueryArgs_invalid_range_iff 1 5).1 (by decide) (by decide) (by decide)
    (by decide)).mpr (by decide)

/-- C1 counterexample: the claim says a range of 5701 seconds yields
interval 30; the code yields interval 15, because `5701 / 15 = 380 ≤ 380`
under integer division. -/
theorem selectAggregation_5701_eq_15 :
    newQueryArgs 0 5701 = .ok ⟨0, 5701, 15⟩ ∧ selectAggregation 5701 = some 15 ∧
      selectAggregation 5701 ≠ some 30 :=
  ⟨rfl, rfl, by decide⟩

/-- C1 amended: for every range with `start ≤ end` whose span fits an
int64 (at most `2^63 - 1`; the program computes the scope as a wrapping
int64 subtraction, so a larger span wraps negative and interval 15 is
selected, as the last conjunct exhibits end to end), the selector returns
the smallest table interval `v` with `(end - start) / v ≤ maxNumberOfPoints`
under integer division, and reports failure exactly when every table entry
exceeds the bound; a range of exactly 5700 seconds yields interval 15, and
so does a range of 5701 seconds (the first range yielding 30 is 5715). -/
theorem selectAggregation_min_spec (start endT : Int) (h : start ≤ endT)
    (hspan : endT - start ≤ 9223372036854775807) :
    (∀ v, selectAggregation (wrapInt64 (endT - start)) = some v →
        v ∈ aggregations ∧ (endT - start).tdiv v ≤ maxNumberOfPoints ∧
          ∀ w ∈ aggregations, (endT - start).tdiv w ≤ maxNumberOfPoints → v ≤ w) ∧
      (selectAggregation (wrapInt64 (endT - start)) = none →
        ∀ w ∈ aggregations, maxNumberOfPoints < (endT - start).tdiv w) ∧
      selectAggregation 5700 = some 15 ∧ selectAggregation 5701 = some 15 ∧
      selectAggregation 5715 = some 30 ∧
      newQueryArgs 9223372036854775807 9223371974719179000 =
        .ok ⟨-9223372036854775801, 9223371974719179000, 15⟩ := by
  have hw : wrapInt64 (endT - start) = endT - start :=
    wrapInt64_eq_self (by omega) hspan
  rw [hw]
  have hsorted : aggregations.Pairwise (fun a b => a ≤ b) := by decide
  refine ⟨?_, ?_, rfl, rfl, rfl, rfl⟩
  · intro v hv
    refine ⟨List.mem_of_find?_eq_some hv, by simpa using List.find?_some hv, ?_⟩
    intro w hw2 hpw
    exact find_le_of_pairwise _ aggregations hsorted v hv w hw2 (by simpa using hpw)
  · intro hnone w hw2
    have := List.find?_eq_none.mp hnone w hw2
    simpa using this

/-- Witness for C1 amended at `start = 0`, `end = 5701`. -/
theorem selectAggregation_min_spec_witness :
    (0 : Int) ≤ 5701 ∧ (5701 : Int) - 0 ≤ 9223372036854775807 ∧
      ((∀ v, selectAggregation (wrapInt64 ((5701 : Int) - 0)) = some v →
          v ∈ aggregations ∧ ((5701 : Int) - 0).tdiv v ≤ maxNumberOfPoints ∧
            ∀ w ∈ aggregations,
              ((5701 : Int) - 0).tdiv w ≤ maxNumberOfPoints → v ≤ w) ∧
        (selectAggregation (wrapInt64 ((5701 : Int) - 0)) = none →
          ∀ w ∈ aggregations, maxNumberOfPoints < ((5701 : Int) - 0).tdiv w) ∧
        selectAggregation 5700 = some 15 ∧ selectAggregation 5701 = some 15 ∧
        selectAggregation 5715 = some 30 ∧
        newQueryArgs 9223372036854775807 9223371974719179000 =
          .ok ⟨-9223372036854775801, 9223371974719179000, 15⟩) :=
  ⟨by decide, by decide, selectAggregation_min_spec 0 5701 (by decide) (by decide)⟩

/-- C4 counterexample: the claim says both timestamps of a statement with an
explicit timestamp are grain-aligned regardless of the raw value.  The line
"k 1 7" matches the grammar and produces valueTimestamp 7 and
sequenceTimestamp 0 (the internal epoch offset 62135596800 is a multiple
of 15, so non-overflowing truncation floors the unix value), and 7 is not
aligned to the 15-second grain. -/
theorem buildStatement_value_unaligned :
    matchStatement ("k 1 7".toList) = some ("k".toList, '1', some ("7".toList)) ∧
      buildStatement 0 0 ("k".toList) '1' (some ("7".toList)) =
        some ⟨"k".toList, 7, .active, 0⟩ ∧
      ¬(7 : Int) % sequenceFrequency = 0 :=
  ⟨rfl, rfl, by decide⟩

/-- C4 amended: every statement built from an explicit timestamp satisfies
sequenceTimestamp less than or equal to valueTimestamp (as unix seconds);
whenever the timestamp is at most `9223371974719179007` (the largest unix
second whose Go internal epoch fits an int64) the sequenceTimestamp is
aligned to the 15-second grain and the valueTimestamp -- the raw timestamp
unchanged -- is aligned exactly when the two coincide; for larger accepted
timestamps the wrapped internal epoch leaves the sequence timestamp
unaligned, as the last two conjuncts exhibit. -/
theorem buildStatement_seq_le_value (dv ds : Int) (k : List Char) (d : Char)
    (tsd : List Char) (st : GoStatement)
    (h : buildStatement dv ds k d (some tsd) = some st) :
    st.createWithTimestamp ≤ st.timestamp ∧
      (st.timestamp ≤ 9223371974719179007 →
        st.createWithTimestamp % sequenceFrequency = 0 ∧
          (st.timestamp % sequenceFrequency = 0 ↔
            st.createWithTimestamp = st.timestamp)) ∧
      goTruncate15 9223372036854775800 = 9223372036854775786 ∧
      ¬(9223372036854775786 : Int) % sequenceFrequency = 0 := by
  have hfreq : sequenceFrequency = (15 : Int) := rfl
  simp only [buildStatement] at h
  cases hds : decodeState d with
  | none => rw [hds] at h; cases h
  | some v =>
    rw [hds] at h
    cases hga : goAtoiDigits tsd with
    | none => rw [hga] at h; cases h
    | some x =>
      rw [hga] at h
      cases h
      have hx : 0 ≤ x ∧ x ≤ 9223372036854775807 := by
        simp only [goAtoiDigits] at hga
        split_ifs at hga with hle
        · injection hga with hxeq
          simp only [maxInt64] at hle
          omega
      have hspec := goTruncate15_spec x hx.1 hx.2
      dsimp only
      rw [hfreq]
      exact ⟨hspec.2.1, hspec.2.2, rfl, by decide⟩

/-- Witness for C4 amended on the line "k 1 7". -/
theorem buildStatement_seq_le_value_witness :
    buildStatement 0 0 ("k".toList) '1' (some ("7".toList)) =
        some ⟨"k".toList, 7, .active, 0⟩ ∧
      ((0 : Int) ≤ 7 ∧
        ((7 : Int) ≤ 9223371974719179007 →
          (0 : Int) % sequenceFrequency = 0 ∧
            ((7 : Int) % sequenceFrequency = 0 ↔ (0 : Int) = 7)) ∧
        goTruncate15 9223372036854775800 = 9223372036854775786 ∧
        ¬(9223372036854775786 : Int) % sequenceFrequency = 0) :=
  ⟨rfl, buildStatement_seq_le_value 0 0 ("k".toList) '1' ("7".toList)
    ⟨"k".toList, 7, .active, 0⟩ rfl⟩

/-- C5: the state-digit decoder cannot reach its panic branch on a matched
line, but the timestamp decoder can: the line
"k 1 9999999999999999999" matches the grammar (the timestamp is digits
only), yet its value exceeds the largest 64-bit int, so strconv.Atoi
returns ErrRange and the handler reaches log.Panic, modelled as the
statement builder returning none. -/
theorem grammar_match_timestamp_panic :
    matchStatement ("k 1 9999999999999999999".toList) =
        some ("k".toList, '1', some ("9999999999999999999".toList)) ∧
      digitsToNat ("9999999999999999999".toList) > maxInt64 ∧
      goAtoiDigits ("9999999999999999999".toList) = none ∧
      buildStatement 0 0 ("k".toList) '1'
          (some ("9999999999999999999".toList)) = none ∧
      decodeState '1' = some .active :=
  ⟨rfl, by decide, rfl, rfl, rfl⟩

/-- C2: the insert handler answers ok exactly when every input line was
accepted (every line matched the grammar and no statement was rejected by
the store), warning otherwise, with message "processed X/Y statement(s)";
on the body "k1 1\nk2 0\nbadline\nk3 1" against a store that accepts all
three parsed statements it answers warning with "processed 3/4
statement(s)". -/
theorem handlerInsert_status_spec (dv : Int) (body : List Char) (errFlags : List Bool)
    (res : InsertResult) (hpar : errFlags.length = matchedCount body)
    (hres : handlerInsert dv body errFlags = some res) :
    (res.status = "ok" ∨ res.status = "warning") ∧
      (res.status = "ok" ↔
        matchedCount body = lineCount body ∧ ∀ b ∈ errFlags, b = false) ∧
      res.message = "processed " ++ toString res.accepted ++ "/" ++
        toString res.total ++ " statement(s)" ∧
      handlerInsert 0 ("k1 1\nk2 0\nbadline\nk3 1".toList) [false, false, false] =
        some ⟨3, 4, "warning", "processed 3/4 statement(s)"⟩ := by
  have hmc : matchedCount body = ((splitLines body).filterMap matchStatement).length := rfl
  have hlc : lineCount body = (splitLines body).length := rfl
  have hml : ((splitLines body).filterMap matchStatement).length ≤ (splitLines body).length :=
    List.length_filterMap_le matchStatement (splitLines body)
  have hec : errFlags.countP (· = true) ≤ errFlags.length :=
    List.countP_le_length _
  simp only [handlerInsert] at hres
  cases hbs : buildStatements dv (goTruncate15 dv)
      ((splitLines body).filterMap matchStatement) with
  | none => rw [hbs] at hres; cases hres
  | some stmts =>
    rw [hbs] at hres
    have hlen : stmts.length = ((splitLines body).filterMap matchStatement).length :=
      buildStatements_length dv (goTruncate15 dv) _ stmts hbs
    cases hres
    refine ⟨?_, ?_, rfl, rfl⟩
    · dsimp only
      split_ifs
      · right; rfl
      · left; rfl
    · dsimp only
      split_ifs with hn
      · constructor
        · intro hcon; exact absurd hcon (by decide)
        · rintro ⟨hm, hb⟩
          exfalso
          apply hn
          have hz : errFlags.countP (· = true) = 0 :=
            List.countP_eq_zero.mpr (by intro a ha; simp [hb a ha])
          omega
      · constructor
        · intro _
          have hn' : (stmts.length : Int) - errFlags.countP (· = true) =
              ((splitLines body).length : Int) := not_not.mp hn
          have hz : matchedCount body = lineCount body ∧
              errFlags.countP (· = true) = 0 := by omega
          refine ⟨hz.1, fun b hb => ?_⟩
          have := List.countP_eq_zero.mp hz.2 b hb
          simpa using this
        · intro _; rfl

/-- Witness for C2 on the body "k1 1\nk2 0\nbadline\nk3 1" with an
all-accepting batch outcome. -/
theorem handlerInsert_status_spec_witness :
    ([false, false, false] : List Bool).length =
        matchedCount ("k1 1\nk2 0\nbadline\nk3 1".toList) ∧
      handlerInsert 0 ("k1 1\nk2 0\nbadline\nk3 1".toList) [false, false, false] =
        some ⟨3, 4, "warning", "processed 3/4 statement(s)"⟩ ∧
      ("warning" = "ok" ∨ "warning" = "warning") :=
  ⟨rfl, rfl,
    (handlerInsert_status_spec 0 ("k1 1\nk2 0\nbadline\nk3 1".toList)
      [false, false, false] ⟨3, 4, "warning", "processed 3/4 statement(s)"⟩
      rfl rfl).1⟩

/-- C3: for every request body whose processing completes, the number of
accepted statements plus the number of skipped or store-rejected statements
equals the number of lines obtained by splitting the body on the newline
byte; the empty line fails the grammar, and a trailing newline contributes
a trailing empty line to the split. -/
theorem handlerInsert_line_accounting (dv : Int) (body : List Char)
    (errFlags : List Bool) (res : InsertResult)
    (hpar : errFlags.length = matchedCount body)
    (hres : handlerInsert dv body errFlags = some res) :
    res.accepted + ((lineCount body - matchedCount body : Nat) : Int) +
        (errFlags.countP (· = true) : Int) = (res.total : Int) ∧
      matchStatement [] = none ∧
      ∀ b : List Char, splitLines (b ++ ['\n']) = splitLines b ++ [[]] := by
  refine ⟨?_, rfl, splitLines_append_newline⟩
  have hmc : matchedCount body = ((splitLines body).filterMap matchStatement).length := rfl
  have hlc : lineCount body = (splitLines body).length := rfl
  have hml : ((splitLines body).filterMap matchStatement).length ≤ (splitLines body).length :=
    List.length_filterMap_le matchStatement (splitLines body)
  have hec : errFlags.countP (· = true) ≤ errFlags.length :=
    List.countP_le_length _
  simp only [handlerInsert] at hres
  cases hbs : buildStatements dv (goTruncate15 dv)
      ((splitLines body).filterMap matchStatement) with
  | none => rw [hbs] at hres; cases hres
  | some stmts =>
    rw [hbs] at hres
    have hlen : stmts.length = ((splitLines body).filterMap matchStatement).length :=
      buildStatements_length dv (goTruncate15 dv) _ stmts hbs
    cases hres
    dsimp only
    omega

/-- Witness for C3 on the body "k1 1\nk2 0\nbadline\nk3 1". -/
theorem handlerInsert_line_accounting_witness :
    handlerInsert 0 ("k1 1\nk2 0\nbadline\nk3 1".toList) [false, false, false] =
        some ⟨3, 4, "warning", "processed 3/4 statement(s)"⟩ ∧
      ((3 : Int) +
          ((lineCount ("k1 1\nk2 0\nbadline\nk3 1".toList) -
              matchedCount ("k1 1\nk2 0\nbadline\nk3 1".toList) : Nat) : Int) +
          (([false, false, false] : List Bool).countP (· = true) : Int) = (4 : Int) ∧
        matchStatement [] = none ∧
        ∀ b : List Char, splitLines (b ++ ['\n']) = splitLines b ++ [[]]) :=
  ⟨rfl, handlerInsert_line_accounting 0 ("k1 1\nk2 0\nbadline\nk3 1".toList)
    [false, false, false] ⟨3, 4, "warning", "processed 3/4 statement(s)"⟩ rfl rfl⟩

/-- C8: a GET query with parseable arguments and a valid range whose key is
absent from the store is answered 400 "key does not exist" and the
store query operation is not invoked. -/
theorem handlerQuery_missing_key (keys : List String) (key : String) (s e : Int)
    (q : Option Nat) (args : QueryArgs) (hok : newQueryArgs s e = .ok args)
    (hkey : keys.contains key = false) :
    handlerQuery keys key s e q = ⟨⟨400, "error", "key does not exist"⟩, false⟩ := by
  simp only [handlerQuery, hok]
  rw [hkey]
  simp

/-- Witness for C8: GET /query/?key=missing&start=0&end=100 on an empty
store. -/
theorem handlerQuery_missing_key_witness :
    newQueryArgs 0 100 = .ok ⟨0, 100, 15⟩ ∧
      ([] : List String).contains "missing" = false ∧
      handlerQuery [] "missing" 0 100 (some 0) =
        ⟨⟨400, "error", "key does not exist"⟩, false⟩ :=
  ⟨rfl, rfl, handlerQuery_missing_key [] "missing" 0 100 (some 0) ⟨0, 100, 15⟩ rfl rfl⟩

/-- C9: if serialization fails, the dump routine performs no file write and
logs the serialization error (so the previous on-disk file is untouched);
the write is attempted exactly when serialization succeeded; and a failing
write is logged while the routine returns normally. -/
theorem dump_frame (ser : Except String (List Nat)) (w : Except String Unit) :
    (∀ e, ser = .error e → dump ser w = ⟨false, ["error dumping store: " ++ e]⟩) ∧
      ((dump ser w).writeAttempted = true ↔ ∃ buf, ser = .ok buf) ∧
      (∀ buf e, ser = .ok buf → w = .error e →
        dump ser w = ⟨true, ["error writing file: " ++ e]⟩) := by
  cases ser <;> cases w <;> simp [dump]

/-- Witness for C9 with a failing serialization. -/
theorem dump_frame_witness :
    dump (.error "boom") (.ok ()) = ⟨false, ["error dumping store: boom"]⟩ :=
  (dump_frame (.error "boom") (.ok ())).1 "boom" rfl

end RunLengthExample
